import Mathlib

/-!
# MusicForge — verification of the batch-transcoding core (src/main.py)

Shallow embedding of the core pipeline of `src/main.py` (class `MusicForgePro`):

* `sanitizeFilename`      — `_sanitize_filename`        (main.py:773-775)
* `resolveName`           — the naming block inside `_process_files` (main.py:806-812)
* `buildFfmpegCommand`    — `_build_ffmpeg_command`     (main.py:831-870)
* `processFiles`          — `_process_files`            (main.py:792-829)
* `startProcessing`       — `_start_processing`         (main.py:777-790)
* `addPaths`              — `_add_paths`                (main.py:710-728)
* `savePreset` / `deletePreset` — `_save_preset` / `_delete_preset` (main.py:447-496)

Python strings are modelled as Lean `String` (lists of characters); Python's
`str.replace` and `str.lower` are re-implemented structurally below so that all
definitions are executable by kernel reduction.  Python machine floats appear in
exactly one place in the core — the progress percentage
`int(((i-1)/total) * 100)` — and are modelled exactly as IEEE-754 binary64
arithmetic (53-significant-bit round-to-nearest-even over `ℚ`, `round53` below).
-/

/-! ## Strings: characters, lowercase, replace, sanitize -/

/-- Per-item metadata, `{"title": .., "artist": .., "album": ..}` as built by
`_read_tags` (main.py:737-748); the empty string means "unset". -/
structure TagSet where
  title : String
  artist : String
  album : String
deriving DecidableEq, Repr

/-- ASCII lowercase of one character, as `str.lower` acts on ASCII
(`'A'..'Z'` shifted by 32, everything else unchanged). -/
def charToLower (c : Char) : Char :=
  if 65 ≤ c.toNat ∧ c.toNat ≤ 90 then Char.ofNat (c.toNat + 32) else c

/-- `str.lower` on an ASCII string (main.py:807 `pattern.lower()`). -/
def toLowerStr (s : String) : String :=
  ⟨s.data.map charToLower⟩

/-- Does `pat` occur at the head of `s`? (helper for `replaceStr`). -/
def matchHead : List Char → List Char → Bool
  | [], _ => true
  | _ :: _, [] => false
  | p :: ps, c :: cs => p = c && matchHead ps cs

/-- Left-to-right, non-overlapping replacement of every occurrence of `pat` by
`repl`, fuelled by the input length (one unit of fuel per consumed character,
so the fuel `s.length` is always enough).  This is Python's
`str.replace(pat, repl)` for a non-empty `pat`. -/
def replaceChars (pat repl : List Char) : Nat → List Char → List Char
  | _, [] => []
  | 0, s => s
  | fuel + 1, c :: rest =>
    if matchHead pat (c :: rest) then
      repl ++ replaceChars pat repl fuel ((c :: rest).drop pat.length)
    else
      c :: replaceChars pat repl fuel rest

/-- Python `s.replace(pat, repl)` (for the non-empty patterns used by the
naming code). -/
def replaceStr (s pat repl : String) : String :=
  ⟨replaceChars pat.data repl.data s.data.length s.data⟩

/-- The characters `_sanitize_filename` removes: the regex class
`[\\/*?:"<>|]` of main.py:775. -/
def illegalFilenameChars : List Char :=
  ['\\', '/', '*', '?', ':', '"', '<', '>', '|']

/-- `_sanitize_filename` (main.py:773-775): replace each character of the class
`[\\/*?:"<>|]` by an underscore.  `re.sub` with a single-character class is a
character-wise map. -/
def sanitizeFilename (s : String) : String :=
  ⟨s.data.map (fun c => if c ∈ illegalFilenameChars then '_' else c)⟩

/-- Python `x or default` for strings: the default when `x` is falsy (empty). -/
def orDefault (v dflt : String) : String :=
  if v = "" then dflt else v

/-- The naming block of `_process_files` (main.py:806-812): lowercase the
pattern, substitute `[artist]`, `[album]`, `[title]`, `[filename]` in that
order (tag fallbacks `"Unknown Artist"`, `"Unknown Album"`, the source stem),
then sanitize.  This is the spec's `NamingResolver.resolve`. -/
def resolveName (pattern : String) (tags : TagSet) (stem : String) : String :=
  let name := toLowerStr pattern
  let name := replaceStr name "[artist]" (orDefault tags.artist "Unknown Artist")
  let name := replaceStr name "[album]" (orDefault tags.album "Unknown Album")
  let name := replaceStr name "[title]" (orDefault tags.title stem)
  let name := replaceStr name "[filename]" stem
  sanitizeFilename name

/-- C4: the resolver's output never contains a character of the class
`\ / * ? : " < > |` — `_sanitize_filename` is the last step of the naming
block and maps every such character to an underscore. -/
theorem resolveName_no_illegal_chars (pattern : String) (tags : TagSet) (stem : String) :
    ((resolveName pattern tags stem).data.all
      (fun c => !(illegalFilenameChars.contains c))) = true := by
  unfold resolveName sanitizeFilename
  simp only [List.all_eq_true, List.mem_map]
  rintro c ⟨a, _, rfl⟩
  by_cases h : a ∈ illegalFilenameChars
  · simp only [h, if_true]
    decide
  · simp [h]

/-- C3 fails on the code: only the *pattern* is lowercased
(main.py:807); substituted tag values keep their case, so the spec's own
example evaluates to `"Unknown Artist - Song"`, not `"unknown artist - song"`. -/
theorem resolveName_not_lowercased :
    resolveName "[artist] - [title]" ⟨"Song", "", ""⟩ "file01" = "Unknown Artist - Song" ∧
    resolveName "[artist] - [title]" ⟨"Song", "", ""⟩ "file01" ≠ "unknown artist - song" := by
  constructor
  · decide
  · decide

/-- C3 (amended): the pattern is case-folded to lowercase before substitution —
so placeholder tokens match case-insensitively — but substituted tag values and
fallback stems keep their original case; the spec's example returns
`"Unknown Artist - Song"`. -/
theorem resolveName_pattern_casefold :
    (∀ tags stem, resolveName "[ARTIST] - [TITLE]" tags stem =
      resolveName "[artist] - [title]" tags stem) ∧
    resolveName "[artist] - [title]" ⟨"Song", "", ""⟩ "file01" = "Unknown Artist - Song" := by
  constructor
  · intro tags stem
    have h : toLowerStr "[ARTIST] - [TITLE]" = toLowerStr "[artist] - [title]" := by decide
    unfold resolveName
    rw [h]
  · decide

/-! ## CommandBuilder: `_build_ffmpeg_command` (main.py:831-870) -/

/-- The conversion settings read by `_build_ffmpeg_command` from the UI state
(the spec's `ConversionProfile`). -/
structure Profile where
  format : String
  quality : String
  sampleRate : Nat
  channels : Nat
  normalize : Bool
  trimSilence : Bool
deriving DecidableEq, Repr

/-- The trim-silence filter string of main.py:842. -/
def trimSilenceFilter : String :=
  "silenceremove=start_periods=1:start_threshold=-45dB:start_silence=0.4"

/-- The loudness-normalize filter string of main.py:844. -/
def loudnormFilter : String :=
  "loudnorm=I=-14:TP=-1.5:LRA=11"

/-- The `afilters` list of main.py:840-844: trim-silence first, then loudnorm,
each only when its flag is set. -/
def afilterList (p : Profile) : List String :=
  (if p.trimSilence then [trimSilenceFilter] else []) ++
  (if p.normalize then [loudnormFilter] else [])

/-- main.py:845-846: `if afilters: cmd.extend(["-af", ",".join(afilters)])`. -/
def afArgs (p : Profile) : List String :=
  if afilterList p = [] then [] else ["-af", String.intercalate "," (afilterList p)]

/-- main.py:849-852: one `-metadata key=value` pair per non-empty value,
iterating the pairs in order. -/
def metadataArgsList : List (String × String) → List String
  | [] => []
  | (k, v) :: rest =>
    (if v = "" then [] else ["-metadata", k ++ "=" ++ v]) ++ metadataArgsList rest

/-- The tag dict built by `_read_tags` has insertion order
`title`, `artist`, `album` (main.py:739), which is the order
`tags.items()` yields in `_build_ffmpeg_command`. -/
def metadataArgs (tags : TagSet) : List String :=
  metadataArgsList [("title", tags.title), ("artist", tags.artist), ("album", tags.album)]

/-- Python `qmap.get(qual, dflt)`: first (here: only) binding of the key, else
the default. -/
def qmapLookup (qmap : List (String × List String)) (qual : String)
    (dflt : List String) : List String :=
  match qmap.find? (fun kv => kv.1 == qual) with
  | some kv => kv.2
  | none => dflt

/-- The mp3 `qmap` of main.py:856. -/
def mp3Qmap : List (String × List String) :=
  [("low", ["-b:a", "128k"]), ("medium", ["-b:a", "192k"]),
   ("high", ["-b:a", "320k"]), ("lossless", ["-b:a", "320k"])]

/-- The ogg `qmap` of main.py:863. -/
def oggQmap : List (String × List String) :=
  [("low", ["-q:a", "3"]), ("medium", ["-q:a", "6"]),
   ("high", ["-q:a", "9"]), ("lossless", ["-q:a", "10"])]

/-- The m4a `qmap` of main.py:866. -/
def m4aQmap : List (String × List String) :=
  [("low", ["-c:a", "aac", "-b:a", "128k"]), ("medium", ["-c:a", "aac", "-b:a", "192k"]),
   ("high", ["-c:a", "aac", "-b:a", "256k"]), ("lossless", ["-c:a", "aac", "-b:a", "320k"])]

/-- The "Format presets" block of main.py:855-867: per-format encoding
arguments, with `qmap.get(qual, medium-equivalent)` for mp3/ogg/m4a, fixed
arguments for wav/flac, and nothing for an unrecognised format. -/
def formatArgs (fmt qual : String) : List String :=
  if fmt = "mp3" then qmapLookup mp3Qmap qual ["-b:a", "192k"]
  else if fmt = "wav" then ["-acodec", "pcm_s16le"]
  else if fmt = "flac" then ["-acodec", "flac", "-compression_level", "5"]
  else if fmt = "ogg" then qmapLookup oggQmap qual ["-q:a", "6"]
  else if fmt = "m4a" then qmapLookup m4aQmap qual ["-c:a", "aac", "-b:a", "192k"]
  else []

/-- Python `str(n)` for a non-negative machine integer: decimal digits,
fuelled (one digit per fuel unit; `n + 1` fuel always suffices). -/
def natToStrAux : Nat → Nat → List Char → List Char
  | 0, _, acc => acc
  | fuel + 1, n, acc =>
    if n / 10 = 0 then Char.ofNat (48 + n % 10) :: acc
    else natToStrAux fuel (n / 10) (Char.ofNat (48 + n % 10) :: acc)

/-- `str(ch)` / `str(sr)` as used at main.py:837. -/
def natToStr (n : Nat) : String :=
  ⟨natToStrAux (n + 1) n []⟩

/-- `_build_ffmpeg_command` (main.py:831-870): common arguments, then the
filter graph, then metadata, then format-specific encoding arguments, then the
output path last. -/
def buildFfmpegCommand (ffmpegBin inputFile outputFile : String) (tags : TagSet)
    (p : Profile) : List String :=
  [ffmpegBin, "-y", "-i", inputFile, "-ac", natToStr p.channels, "-ar", natToStr p.sampleRate]
  ++ afArgs p ++ metadataArgs tags ++ formatArgs p.format p.quality ++ [outputFile]

/-- Modelled from the spec: the quality table of §4.2, read off the table text
— mp3 bitrates 128k/192k/320k/320k, wav fixed PCM 16-bit, flac fixed codec at
compression level 5, ogg quality indices 3/6/9/10, m4a AAC at
128k/192k/256k/320k — and any quality outside {low, medium, high, lossless}
falling back to the format's medium-equivalent setting. -/
def specFormatArgs (fmt qual : String) : List String :=
  if fmt = "mp3" then
    if qual = "low" then ["-b:a", "128k"]
    else if qual = "high" then ["-b:a", "320k"]
    else if qual = "lossless" then ["-b:a", "320k"]
    else ["-b:a", "192k"]
  else if fmt = "wav" then ["-acodec", "pcm_s16le"]
  else if fmt = "flac" then ["-acodec", "flac", "-compression_level", "5"]
  else if fmt = "ogg" then
    if qual = "low" then ["-q:a", "3"]
    else if qual = "high" then ["-q:a", "9"]
    else if qual = "lossless" then ["-q:a", "10"]
    else ["-q:a", "6"]
  else if fmt = "m4a" then
    if qual = "low" then ["-c:a", "aac", "-b:a", "128k"]
    else if qual = "high" then ["-c:a", "aac", "-b:a", "256k"]
    else if qual = "lossless" then ["-c:a", "aac", "-b:a", "320k"]
    else ["-c:a", "aac", "-b:a", "192k"]
  else []

theorem qmapLookup_nil (qual : String) (dflt : List String) :
    qmapLookup [] qual dflt = dflt := rfl

theorem qmapLookup_cons (k : String) (vs : List String)
    (rest : List (String × List String)) (qual : String) (dflt : List String) :
    qmapLookup ((k, vs) :: rest) qual dflt =
      if qual = k then vs else qmapLookup rest qual dflt := by
  unfold qmapLookup
  by_cases h : qual = k
  · rw [List.find?_cons_of_pos _ (by simp [h]), if_pos h]
  · rw [List.find?_cons_of_neg _ (by simp [Ne.symm h]), if_neg h]

theorem formatArgs_eq_specFormatArgs (fmt qual : String) :
    formatArgs fmt qual = specFormatArgs fmt qual := by
  unfold formatArgs specFormatArgs
  simp only [mp3Qmap, oggQmap, m4aQmap, qmapLookup_cons, qmapLookup_nil]
  by_cases h1 : qual = "low" <;> by_cases h2 : qual = "medium" <;>
    by_cases h3 : qual = "high" <;> by_cases h4 : qual = "lossless" <;>
    simp_all

/-- C1: the command emits exactly the format-specific encoding arguments of the
spec's quality table (mp3 128k/192k/320k/320k, wav PCM 16-bit, flac compression
level 5, ogg 3/6/9/10, m4a AAC 128k/192k/256k/320k), and an unknown quality
falls back to the format's medium-equivalent setting instead of failing. -/
theorem buildCommand_quality_table :
    (∀ bin inp out tags p, buildFfmpegCommand bin inp out tags p =
      [bin, "-y", "-i", inp, "-ac", natToStr p.channels, "-ar", natToStr p.sampleRate]
      ++ afArgs p ++ metadataArgs tags ++ specFormatArgs p.format p.quality ++ [out]) ∧
    (∀ qual, qual ∉ ["low", "medium", "high", "lossless"] →
      specFormatArgs "mp3" qual = ["-b:a", "192k"] ∧
      specFormatArgs "ogg" qual = ["-q:a", "6"] ∧
      specFormatArgs "m4a" qual = ["-c:a", "aac", "-b:a", "192k"]) := by
  constructor
  · intro bin inp out tags p
    unfold buildFfmpegCommand
    rw [formatArgs_eq_specFormatArgs]
  · intro qual h
    obtain ⟨h1, h2, h3, h4⟩ :
        qual ≠ "low" ∧ qual ≠ "medium" ∧ qual ≠ "high" ∧ qual ≠ "lossless" := by
      simpa using h
    refine ⟨?_, ?_, ?_⟩ <;> simp [specFormatArgs, h1, h2, h3, h4]

theorem buildCommand_quality_table_witness :
    (("ultra" : String) ∉ ["low", "medium", "high", "lossless"]) ∧
    specFormatArgs "mp3" "ultra" = ["-b:a", "192k"] :=
  ⟨by decide, (buildCommand_quality_table.2 "ultra" (by decide)).1⟩

/-- C10: for a format outside {mp3, wav, flac, ogg, m4a} the builder emits no
format-specific encoding arguments but still produces the common arguments,
filters and metadata, with the output path last. -/
theorem buildCommand_unknown_format (bin inp out : String) (tags : TagSet) (p : Profile)
    (h : p.format ∉ ["mp3", "wav", "flac", "ogg", "m4a"]) :
    buildFfmpegCommand bin inp out tags p =
      [bin, "-y", "-i", inp, "-ac", natToStr p.channels, "-ar", natToStr p.sampleRate]
      ++ afArgs p ++ metadataArgs tags ++ [out] ∧
    (buildFfmpegCommand bin inp out tags p).getLast? = some out := by
  obtain ⟨h1, h2, h3, h4, h5⟩ :
      p.format ≠ "mp3" ∧ p.format ≠ "wav" ∧ p.format ≠ "flac" ∧
        p.format ≠ "ogg" ∧ p.format ≠ "m4a" := by
    simpa using h
  have hf : formatArgs p.format p.quality = [] := by
    simp [formatArgs, h1, h2, h3, h4, h5]
  constructor
  · unfold buildFfmpegCommand
    rw [hf, List.append_nil]
  · unfold buildFfmpegCommand
    rw [hf]
    exact List.getLast?_concat _

theorem buildCommand_unknown_format_witness :
    (("opus" : String) ∉ ["mp3", "wav", "flac", "ogg", "m4a"]) ∧
    (buildFfmpegCommand "ffmpeg" "in.wav" "out.opus" ⟨"", "", ""⟩
        ⟨"opus", "high", 44100, 2, false, false⟩).getLast? = some "out.opus" :=
  ⟨by decide, (buildCommand_unknown_format "ffmpeg" "in.wav" "out.opus" ⟨"", "", ""⟩
      ⟨"opus", "high", 44100, 2, false, false⟩ (by decide)).2⟩

theorem dash_not_mem_natToStrAux :
    ∀ (fuel n : Nat) (acc : List Char), '-' ∉ acc → '-' ∉ natToStrAux fuel n acc := by
  intro fuel
  induction fuel with
  | zero =>
    intro n acc h
    simpa [natToStrAux] using h
  | succ fuel ih =>
    intro n acc h
    have h10 : n % 10 < 10 := Nat.mod_lt _ (by norm_num)
    have hd : Char.ofNat (48 + n % 10) ≠ '-' := by
      set r := n % 10 with hr
      interval_cases r <;> decide
    have heq : natToStrAux (fuel + 1) n acc =
        if n / 10 = 0 then Char.ofNat (48 + n % 10) :: acc
        else natToStrAux fuel (n / 10) (Char.ofNat (48 + n % 10) :: acc) := rfl
    rw [heq]
    split
    · intro hmem
      rcases List.mem_cons.mp hmem with h1 | h1
      · exact hd h1.symm
      · exact h h1
    · apply ih
      intro hmem
      rcases List.mem_cons.mp hmem with h1 | h1
      · exact hd h1.symm
      · exact h h1

/-- The decimal text of a machine integer never looks like the `-af` flag. -/
theorem natToStr_ne_af (n : Nat) : natToStr n ≠ "-af" := by
  intro h
  have hd : '-' ∈ (natToStr n).data := by
    rw [h]
    decide
  exact dash_not_mem_natToStrAux (n + 1) n [] (by simp) hd

theorem long_append_ne_af (k v : String) (hk : 3 < k.length) : k ++ v ≠ "-af" := by
  intro h
  have hd := congrArg String.length h
  rw [String.length_append] at hd
  have h3 : ("-af" : String).length = 3 := rfl
  omega

theorem af_not_mem_metadataArgsList (prs : List (String × String))
    (h : ∀ kv ∈ prs, 3 < (kv.1 ++ "=" : String).length) :
    "-af" ∉ metadataArgsList prs := by
  induction prs with
  | nil => simp [metadataArgsList]
  | cons kv rest ih =>
    obtain ⟨k, v⟩ := kv
    simp only [metadataArgsList, List.mem_append]
    intro hmem
    rcases hmem with h1 | h1
    · by_cases hv : v = ""
      · simp [hv] at h1
      · simp only [hv, if_neg, if_false, List.mem_cons, List.not_mem_nil, or_false] at h1
        rcases h1 with h2 | h2
        · exact absurd h2 (by decide)
        · exact long_append_ne_af (k ++ "=") v (h (k, v) (by simp)) h2.symm
    · exact ih (fun kv hkv => h kv (by simp [hkv])) h1

theorem af_not_mem_metadataArgs (tags : TagSet) : "-af" ∉ metadataArgs tags := by
  apply af_not_mem_metadataArgsList
  intro kv hkv
  simp only [List.mem_cons, List.not_mem_nil, or_false] at hkv
  rcases hkv with rfl | rfl | rfl <;> simp [String.length_append] <;> decide

theorem af_not_mem_qmapLookup (qmap : List (String × List String)) (qual : String)
    (dflt : List String) (h1 : ∀ kv ∈ qmap, "-af" ∉ kv.2) (h2 : "-af" ∉ dflt) :
    "-af" ∉ qmapLookup qmap qual dflt := by
  unfold qmapLookup
  split
  · next kv heq => exact h1 kv (List.mem_of_find?_eq_some heq)
  · exact h2

theorem af_not_mem_formatArgs (fmt qual : String) : "-af" ∉ formatArgs fmt qual := by
  unfold formatArgs
  split_ifs <;>
    first
      | exact af_not_mem_qmapLookup _ _ _ (by decide) (by decide)
      | decide

theorem afArgs_cases (p : Profile) :
    afArgs p =
      if p.trimSilence then
        (if p.normalize then ["-af", trimSilenceFilter ++ "," ++ loudnormFilter]
         else ["-af", trimSilenceFilter])
      else (if p.normalize then ["-af", loudnormFilter] else []) := by
  unfold afArgs afilterList
  cases htr : p.trimSilence <;> cases hn : p.normalize <;> simp <;> decide

/-- C2: with both flags set the command carries exactly one `-af` argument
whose value is the trim-silence filter followed (after a comma) by the loudness
normalizer — trim strictly before normalize; with one flag set only that filter
appears, and with neither flag no filter argument is emitted at all. -/
theorem buildCommand_filter_chain (bin inp out : String) (tags : TagSet) (p : Profile)
    (hbin : bin ≠ "-af") (hinp : inp ≠ "-af") (hout : out ≠ "-af") :
    ((buildFfmpegCommand bin inp out tags p).count "-af"
        = if p.trimSilence || p.normalize then 1 else 0) ∧
    (p.trimSilence = true → p.normalize = true →
      afArgs p = ["-af", trimSilenceFilter ++ "," ++ loudnormFilter]) ∧
    (p.trimSilence = true → p.normalize = false → afArgs p = ["-af", trimSilenceFilter]) ∧
    (p.trimSilence = false → p.normalize = true → afArgs p = ["-af", loudnormFilter]) ∧
    (p.trimSilence = false → p.normalize = false → afArgs p = []) := by
  have hhead : ("-af" : String) ∉
      [bin, "-y", "-i", inp, "-ac", natToStr p.channels, "-ar", natToStr p.sampleRate] := by
    intro hmem
    simp only [List.mem_cons, List.not_mem_nil, or_false] at hmem
    rcases hmem with h | h | h | h | h | h | h | h
    · exact hbin h.symm
    · exact absurd h (by decide)
    · exact absurd h (by decide)
    · exact hinp h.symm
    · exact absurd h (by decide)
    · exact natToStr_ne_af _ h.symm
    · exact absurd h (by decide)
    · exact natToStr_ne_af _ h.symm
  have h0 : ([bin, "-y", "-i", inp, "-ac", natToStr p.channels, "-ar",
      natToStr p.sampleRate].count ("-af" : String)) = 0 :=
    List.count_eq_zero.mpr hhead
  have hmd : ((metadataArgs tags).count ("-af" : String)) = 0 :=
    List.count_eq_zero.mpr (af_not_mem_metadataArgs tags)
  have hfa : ((formatArgs p.format p.quality).count ("-af" : String)) = 0 :=
    List.count_eq_zero.mpr (af_not_mem_formatArgs _ _)
  have hocount : ([out].count ("-af" : String)) = 0 :=
    List.count_eq_zero.mpr (fun hh => hout (List.mem_singleton.mp hh).symm)
  refine ⟨?_, ?_, ?_, ?_, ?_⟩
  · unfold buildFfmpegCommand
    rw [List.count_append, List.count_append, List.count_append, List.count_append,
      h0, hmd, hfa, hocount, afArgs_cases]
    cases htr : p.trimSilence <;> cases hn : p.normalize <;> simp <;> decide
  · intro h1 h2
    rw [afArgs_cases, h1, h2]
    simp
  · intro h1 h2
    rw [afArgs_cases, h1, h2]
    simp
  · intro h1 h2
    rw [afArgs_cases, h1, h2]
    simp
  · intro h1 h2
    rw [afArgs_cases, h1, h2]
    simp

theorem buildCommand_filter_chain_witness :
    (("ffmpeg" : String) ≠ "-af" ∧ ("in.wav" : String) ≠ "-af" ∧
      ("out.mp3" : String) ≠ "-af") ∧
    ((buildFfmpegCommand "ffmpeg" "in.wav" "out.mp3" ⟨"", "", ""⟩
        ⟨"mp3", "high", 44100, 2, true, true⟩).count "-af" = 1 ∧
      afArgs ⟨"mp3", "high", 44100, 2, true, true⟩
        = ["-af", trimSilenceFilter ++ "," ++ loudnormFilter]) := by
  have h := buildCommand_filter_chain "ffmpeg" "in.wav" "out.mp3" ⟨"", "", ""⟩
      ⟨"mp3", "high", 44100, 2, true, true⟩ (by decide) (by decide) (by decide)
  exact ⟨⟨by decide, by decide, by decide⟩, ⟨h.1, h.2.1 rfl rfl⟩⟩

/-! ## Queue items, batch entry guard (`_start_processing`, main.py:777-790) -/

/-- One queue entry as built by `_add_paths` (main.py:717-721): the source path
and its metadata tags (the treeview id is presentation state and not modelled). -/
structure FileItem where
  path : String
  tags : TagSet
deriving DecidableEq, Repr

/-- Why `_start_processing` refuses to start: empty queue, FFmpeg not
detected, no output directory chosen, or `os.makedirs` raising (the exception
propagates out of `_start_processing` before `worker.submit`). -/
inductive StartRefusal
  | noFiles
  | ffmpegMissing
  | noOutputDir
  | mkdirFailed
deriving DecidableEq, Repr

/-- `_start_processing` (main.py:777-790).  `.ok ()` means the batch job was
submitted to the worker; every `.error` leaves the worker queue untouched. -/
def startProcessing (fileQueue : List FileItem) (ffmpegAvailable : Bool)
    (outdir : String) (mkdirOk : Bool) : Except StartRefusal Unit :=
  if fileQueue.isEmpty then .error .noFiles
  else if !ffmpegAvailable then .error .ffmpegMissing
  else if outdir = "" then .error .noOutputDir
  else if !mkdirOk then .error .mkdirFailed
  else .ok ()

theorem startProcessing_ok_iff (q : List FileItem) (f : Bool) (o : String) (m : Bool) :
    startProcessing q f o m = .ok () ↔ (q ≠ [] ∧ f = true ∧ o ≠ "" ∧ m = true) := by
  unfold startProcessing
  constructor
  · intro h
    by_cases h1 : q.isEmpty = true
    · simp [h1] at h
    · by_cases h2 : f = true
      · by_cases h3 : o = ""
        · simp [h1, h2, h3] at h
        · by_cases h4 : m = true
          · exact ⟨by simpa [List.isEmpty_iff] using h1, h2, h3, h4⟩
          · simp [h1, h2, h3, h4] at h
      · simp [h1, h2] at h
  · rintro ⟨h1, h2, h3, h4⟩
    simp [List.isEmpty_iff, h1, h2, h3, h4]

/-- C7: the batch starts (job submitted) exactly when the queue is non-empty,
FFmpeg was detected, an output directory is set and it can be created; in every
guard case the refusal is reported synchronously as an error and no job is
submitted. -/
theorem startBatch_guards (q : List FileItem) (f : Bool) (o : String) (m : Bool) :
    ((startProcessing q f o m = .ok ()) ↔ (q ≠ [] ∧ f = true ∧ o ≠ "" ∧ m = true)) ∧
    ((q = [] ∨ f = false ∨ o = "" ∨ m = false) →
      ∃ e, startProcessing q f o m = .error e) := by
  refine ⟨startProcessing_ok_iff q f o m, ?_⟩
  intro hdisj
  cases hres : startProcessing q f o m with
  | error e => exact ⟨e, rfl⟩
  | ok u =>
    cases u
    obtain ⟨h1, h2, h3, h4⟩ := (startProcessing_ok_iff q f o m).mp hres
    rcases hdisj with h | h | h | h
    · exact absurd h h1
    · exact absurd h2 (by simp [h])
    · exact absurd h h3
    · exact absurd h4 (by simp [h])

theorem startBatch_guards_witness :
    (([] : List FileItem) = [] ∨ (true : Bool) = false ∨ ("out" : String) = "" ∨
      (true : Bool) = false) ∧
    ∃ e, startProcessing [] true "out" true = .error e :=
  ⟨Or.inl rfl, (startBatch_guards [] true "out" true).2 (Or.inl rfl)⟩

/-! ## Queue addition: `_add_paths` (main.py:710-728) -/

/-- The loop body of `_add_paths`: `existing_paths` is the set snapshot taken
*once* before the loop (main.py:712), so it never grows during the call;
`readTags` stands for `_read_tags`.  Returns the newly created items (in input
order) and the `added` counter. -/
def addPathsLoop (existingPaths : List String) (readTags : String → TagSet) :
    List String → List FileItem × Nat
  | [] => ([], 0)
  | fp :: rest =>
    if fp ≠ "" ∧ fp ∉ existingPaths then
      ((⟨fp, readTags fp⟩ : FileItem) :: (addPathsLoop existingPaths readTags rest).1,
        (addPathsLoop existingPaths readTags rest).2 + 1)
    else addPathsLoop existingPaths readTags rest

/-- `_add_paths` (main.py:710-728): skip falsy paths and paths already in the
queue at call time, append the rest, and report how many were added
(`added = 0` is the "nothing added" outcome shown to the caller). -/
def addPaths (fileQueue : List FileItem) (readTags : String → TagSet)
    (paths : List String) : List FileItem × Nat :=
  ((fileQueue ++ (addPathsLoop (fileQueue.map (fun it => it.path)) readTags paths).1),
    (addPathsLoop (fileQueue.map (fun it => it.path)) readTags paths).2)

/-- C8 fails on the code: the dedup set is snapshotted before the loop, so one
`_add_paths` call whose input repeats a path not yet in the queue adds it twice
— the queue's paths are then *not* pairwise distinct. -/
theorem addPaths_duplicate_input :
    ((addPaths [] (fun _ => ⟨"", "", ""⟩) ["a", "a"]).1.map (fun it => it.path)
      = ["a", "a"]) ∧
    ¬ ((addPaths [] (fun _ => ⟨"", "", ""⟩) ["a", "a"]).1.map (fun it => it.path)).Nodup := by
  constructor
  · decide
  · decide

theorem addPathsLoop_paths (ex : List String) (rt : String → TagSet) (ps : List String) :
    (addPathsLoop ex rt ps).1.map (fun it => it.path)
      = ps.filter (fun fp => decide (fp ≠ "" ∧ fp ∉ ex)) := by
  induction ps with
  | nil => rfl
  | cons fp rest ih =>
    unfold addPathsLoop
    by_cases h : fp ≠ "" ∧ fp ∉ ex
    · simp [h, List.filter_cons, ih]
    · simp [h, List.filter_cons, ih]

/-- C8 (amended): enqueueing a path already present in the queue is a no-op
(queue unchanged, `added = 0`), and the queue's paths stay pairwise distinct
for every call whose input list has no internal duplicates; only a single call
repeating a *new* path can create duplicates (see the counterexample). -/
theorem addPaths_dedup (q : List FileItem) (readTags : String → TagSet) :
    (∀ p, p ∈ q.map (fun it => it.path) → addPaths q readTags [p] = (q, 0)) ∧
    (∀ paths, (q.map (fun it => it.path)).Nodup → paths.Nodup →
      ((addPaths q readTags paths).1.map (fun it => it.path)).Nodup) := by
  constructor
  · intro p hp
    have hcond : ¬(p ≠ "" ∧ p ∉ q.map (fun it => it.path)) := by
      intro hc
      exact hc.2 hp
    unfold addPaths
    rw [show addPathsLoop (q.map (fun it => it.path)) readTags [p]
        = addPathsLoop (q.map (fun it => it.path)) readTags [] from by
      unfold addPathsLoop
      rw [if_neg hcond]
      rfl]
    simp [addPathsLoop]
  · intro paths hq hp
    unfold addPaths
    simp only [List.map_append]
    apply List.Nodup.append hq
    · rw [addPathsLoop_paths]
      exact hp.filter _
    · rw [addPathsLoop_paths]
      intro a ha hb
      have hmem := List.of_mem_filter hb
      simp only [decide_eq_true_eq] at hmem
      exact hmem.2 ha

theorem addPaths_dedup_witness :
    (("a" : String) ∈ ([⟨"a", ⟨"", "", ""⟩⟩] : List FileItem).map (fun it => it.path)) ∧
    addPaths [⟨"a", ⟨"", "", ""⟩⟩] (fun _ => ⟨"", "", ""⟩) ["a"]
      = ([⟨"a", ⟨"", "", ""⟩⟩], 0) :=
  ⟨by decide,
    (addPaths_dedup [⟨"a", ⟨"", "", ""⟩⟩] (fun _ => ⟨"", "", ""⟩)).1 "a" (by decide)⟩

/-! ## Presets: `_save_preset` / `_delete_preset` (main.py:447-496) -/

/-- The four built-in preset names (`default_presets`, main.py:206-211). -/
def defaultPresetNames : List String :=
  ["High MP3", "Lossless", "Podcast", "Voice Note"]

/-- One persisted preset record (`preset_data`, main.py:455-462). -/
structure PresetData where
  format : String
  quality : String
  normalize : Bool
  trimSilence : Bool
  samplerate : Nat
  channels : Nat
deriving DecidableEq, Repr

/-- The user-preset state: the in-memory `custom_presets` dict and the
persisted contents of `presets.json`, both as insertion-ordered key/value
lists. -/
structure PresetStore where
  customPresets : List (String × PresetData)
  presetsFile : List (String × PresetData)
deriving DecidableEq, Repr

/-- Rejection outcomes of the preset dialogs: empty dialog input, the
"Cannot Overwrite"/"Cannot Delete" warnings for built-in names, the
"Not Found" message, a declined confirmation, and an `IOError` from
writing `presets.json`. -/
inductive PresetOpError
  | emptyName
  | cannotOverwrite
  | builtinProtected
  | notFound
  | cancelled
  | writeFailed
deriving DecidableEq, Repr

/-- Python dict assignment `custom_presets[name] = data`: update in place if
the key exists, else append (dicts preserve insertion order). -/
def upsert (m : List (String × PresetData)) (name : String) (d : PresetData) :
    List (String × PresetData) :=
  if m.any (fun kv => kv.1 == name) then
    m.map (fun kv => if kv.1 == name then (name, d) else kv)
  else m ++ [(name, d)]

/-- `_save_preset` (main.py:447-473): empty name → silent return; built-in
name → "Cannot Overwrite" warning, nothing touched; otherwise the in-memory
dict is updated and `presets.json` rewritten (on `IOError` the memory copy
stays updated but the file does not). -/
def savePreset (st : PresetStore) (name : String) (d : PresetData) (writeOk : Bool) :
    PresetStore × Option PresetOpError :=
  if name = "" then (st, some .emptyName)
  else if name ∈ defaultPresetNames then (st, some .cannotOverwrite)
  else
    if writeOk then
      ({ customPresets := upsert st.customPresets name d,
         presetsFile := upsert st.customPresets name d }, none)
    else ({ st with customPresets := upsert st.customPresets name d }, some .writeFailed)

/-- Python `del custom_presets[name]`. -/
def erasePreset (m : List (String × PresetData)) (name : String) :
    List (String × PresetData) :=
  m.filter (fun kv => !(kv.1 == name))

/-- `_delete_preset` (main.py:475-496): empty selection → silent return;
built-in name → "Cannot Delete" warning; unknown name → "Not Found"; declined
confirmation → nothing; otherwise delete and rewrite `presets.json`. -/
def deletePreset (st : PresetStore) (name : String) (confirmed writeOk : Bool) :
    PresetStore × Option PresetOpError :=
  if name = "" then (st, some .emptyName)
  else if name ∈ defaultPresetNames then (st, some .builtinProtected)
  else if !(st.customPresets.any (fun kv => kv.1 == name)) then (st, some .notFound)
  else if !confirmed then (st, some .cancelled)
  else
    if writeOk then
      ({ customPresets := erasePreset st.customPresets name,
         presetsFile := erasePreset st.customPresets name }, none)
    else ({ st with customPresets := erasePreset st.customPresets name }, some .writeFailed)

theorem mem_upsert_keys (m : List (String × PresetData)) (n : String) (d : PresetData)
    (k : String) (h : k ∈ (upsert m n d).map (fun kv => kv.1)) :
    k ∈ m.map (fun kv => kv.1) ∨ k = n := by
  unfold upsert at h
  by_cases ha : m.any (fun kv => kv.1 == n) = true
  · rw [if_pos ha, List.map_map] at h
    obtain ⟨kv, hkv, hk⟩ := List.mem_map.mp h
    by_cases hb : kv.1 == n
    · right
      simp only [Function.comp, hb, if_pos] at hk
      exact hk.symm
    · left
      simp only [Function.comp, hb] at hk
      rw [if_neg (by simp_all)] at hk
      exact List.mem_map.mpr ⟨kv, hkv, hk⟩
  · rw [if_neg ha, List.map_append] at h
    rcases List.mem_append.mp h with h1 | h1
    · exact Or.inl h1
    · right
      simpa using h1

/-- C9: saving under a built-in preset name is rejected (NameCollision /
"Cannot Overwrite") and deleting a built-in name is rejected (Protected /
"Cannot Delete"), both leaving the in-memory store and the persisted file
unchanged; consequently the save/delete operations never let a user preset
name collide with a built-in name. -/
theorem preset_builtin_protection (st : PresetStore) (name : String) (d : PresetData)
    (wOk conf : Bool) (h : name ∈ defaultPresetNames) :
    savePreset st name d wOk = (st, some .cannotOverwrite) ∧
    deletePreset st name conf wOk = (st, some .builtinProtected) ∧
    ((∀ k ∈ st.customPresets.map (fun kv => kv.1), k ∉ defaultPresetNames) →
      ∀ (n : String) (d' : PresetData) (w' c' : Bool),
        (∀ k ∈ (savePreset st n d' w').1.customPresets.map (fun kv => kv.1),
          k ∉ defaultPresetNames) ∧
        (∀ k ∈ (deletePreset st n c' w').1.customPresets.map (fun kv => kv.1),
          k ∉ defaultPresetNames)) := by
  have hne : name ≠ "" := by
    rintro rfl
    exact absurd h (by decide)
  refine ⟨?_, ?_, ?_⟩
  · unfold savePreset
    rw [if_neg hne, if_pos h]
  · unfold deletePreset
    rw [if_neg hne, if_pos h]
  · intro hinv n d' w' c'
    constructor
    · unfold savePreset
      by_cases h1 : n = ""
      · rw [if_pos h1]
        exact hinv
      · rw [if_neg h1]
        by_cases h2 : n ∈ defaultPresetNames
        · rw [if_pos h2]
          exact hinv
        · rw [if_neg h2]
          cases w' <;> simp only [if_true, if_false, Bool.false_eq_true] <;>
            intro k hk <;>
            rcases mem_upsert_keys st.customPresets n d' k hk with hm | rfl
          · exact hinv k hm
          · exact h2
          · exact hinv k hm
          · exact h2
    · unfold deletePreset
      by_cases h1 : n = ""
      · rw [if_pos h1]
        exact hinv
      · rw [if_neg h1]
        by_cases h2 : n ∈ defaultPresetNames
        · rw [if_pos h2]
          exact hinv
        · rw [if_neg h2]
          by_cases h3 : (!(st.customPresets.any (fun kv => kv.1 == n))) = true
          · rw [if_pos h3]
            exact hinv
          · rw [if_neg h3]
            by_cases h4 : (!c') = true
            · rw [if_pos h4]
              exact hinv
            · rw [if_neg h4]
              cases w' <;> simp only [if_true, if_false, Bool.false_eq_true] <;>
                intro k hk <;>
                apply hinv k
              · obtain ⟨kv, hkv, rfl⟩ := List.mem_map.mp hk
                exact List.mem_map.mpr ⟨kv, List.mem_of_mem_filter hkv, rfl⟩
              · obtain ⟨kv, hkv, rfl⟩ := List.mem_map.mp hk
                exact List.mem_map.mpr ⟨kv, List.mem_of_mem_filter hkv, rfl⟩

theorem preset_builtin_protection_witness :
    (("High MP3" : String) ∈ defaultPresetNames) ∧
    savePreset ⟨[], []⟩ "High MP3" ⟨"mp3", "high", false, false, 44100, 2⟩ true
        = (⟨[], []⟩, some .cannotOverwrite) ∧
    deletePreset ⟨[], []⟩ "High MP3" true true = (⟨[], []⟩, some .builtinProtected) := by
  have h := preset_builtin_protection ⟨[], []⟩ "High MP3"
      ⟨"mp3", "high", false, false, 44100, 2⟩ true true (by decide)
  exact ⟨by decide, h.1, h.2.1⟩

/-! ## IEEE-754 binary64 arithmetic over ℚ

`_process_files` computes `pct = int(((i-1)/total) * 100)` (main.py:802) with
Python machine floats: one binary64 division, one binary64 multiplication,
then truncation.  Both operands convert to binary64 exactly (queue lengths are
far below `2^53`), so the computation is modelled exactly: `round53` is the
round-to-nearest, ties-to-even rounding of a positive rational to 53
significant bits (exponents never leave the normal range for the values that
occur here). -/

/-- Round to the nearest integer, ties to even (the IEEE-754 default). -/
def roundEvenQ (q : ℚ) : ℤ :=
  if q - ⌊q⌋ < 1/2 then ⌊q⌋
  else if (1/2 : ℚ) < q - ⌊q⌋ then ⌊q⌋ + 1
  else if ⌊q⌋ % 2 = 0 then ⌊q⌋ else ⌊q⌋ + 1

/-- Round a positive rational to 53 significant bits (binary64 round to
nearest even); non-positive inputs (not produced by the progress computation)
map to 0. -/
def round53 (q : ℚ) : ℚ :=
  if q ≤ 0 then 0
  else (roundEvenQ (q * 2 ^ ((52 : ℤ) - Int.log 2 q)) : ℚ) * 2 ^ (Int.log 2 q - 52)

theorem floor_le_roundEvenQ (q : ℚ) : ⌊q⌋ ≤ roundEvenQ q := by
  unfold roundEvenQ
  split_ifs <;> omega

theorem roundEvenQ_le_floor_add_one (q : ℚ) : roundEvenQ q ≤ ⌊q⌋ + 1 := by
  unfold roundEvenQ
  split_ifs <;> omega

theorem roundEvenQ_intCast (n : ℤ) : roundEvenQ (n : ℚ) = n := by
  unfold roundEvenQ
  rw [Int.floor_intCast, if_pos (by norm_num)]

theorem roundEvenQ_mono (a b : ℚ) (h : a ≤ b) : roundEvenQ a ≤ roundEvenQ b := by
  by_cases hf : ⌊a⌋ = ⌊b⌋
  · have hab : a - (⌊b⌋ : ℚ) ≤ b - (⌊b⌋ : ℚ) := by linarith
    unfold roundEvenQ
    rw [hf]
    split_ifs <;> first | omega | linarith
  · have hlt : ⌊a⌋ < ⌊b⌋ := lt_of_le_of_ne (Int.floor_le_floor h) hf
    calc roundEvenQ a ≤ ⌊a⌋ + 1 := roundEvenQ_le_floor_add_one a
      _ ≤ ⌊b⌋ := by omega
      _ ≤ roundEvenQ b := floor_le_roundEvenQ b

theorem round53_nonneg (q : ℚ) : 0 ≤ round53 q := by
  unfold round53
  split_ifs with h
  · exact le_refl 0
  · push_neg at h
    apply mul_nonneg
    · have hx : 0 < q * (2 : ℚ) ^ ((52 : ℤ) - Int.log 2 q) :=
        mul_pos h (zpow_pos (by norm_num) _)
      have h1 : (0 : ℤ) ≤ ⌊q * (2 : ℚ) ^ ((52 : ℤ) - Int.log 2 q)⌋ :=
        Int.floor_nonneg.mpr hx.le
      exact_mod_cast le_trans h1 (floor_le_roundEvenQ _)
    · exact (zpow_pos (by norm_num) _).le

theorem round53_pos_eq (q : ℚ) (hq : 0 < q) :
    round53 q =
      (roundEvenQ (q * 2 ^ ((52 : ℤ) - Int.log 2 q)) : ℚ) * 2 ^ (Int.log 2 q - 52) := by
  unfold round53
  rw [if_neg (not_le.mpr hq)]

theorem q_lt_zpow_succ_log (q : ℚ) : q < (2 : ℚ) ^ (Int.log 2 q + 1) := by
  have h := Int.lt_zpow_succ_log_self (b := 2) (by norm_num) q
  push_cast at h
  exact h

theorem zpow_log_le_q (q : ℚ) (hq : 0 < q) : (2 : ℚ) ^ Int.log 2 q ≤ q := by
  have h := Int.zpow_log_le_self (b := 2) (by norm_num) hq
  push_cast at h
  exact h

theorem int_log_eq_of_bounds {q : ℚ} {k : ℤ} (hq : 0 < q)
    (h1 : (2 : ℚ) ^ k ≤ q) (h2 : q < (2 : ℚ) ^ (k + 1)) : Int.log 2 q = k := by
  have hle : k ≤ Int.log 2 q := by
    rw [← Int.zpow_le_iff_le_log (by norm_num) hq]
    push_cast
    exact h1
  have hlt : Int.log 2 q < k + 1 := by
    rw [← Int.lt_zpow_iff_log_lt (by norm_num) hq]
    push_cast
    exact h2
  omega

theorem round53_le_zpow_succ (q : ℚ) (hq : 0 < q) :
    round53 q ≤ 2 ^ (Int.log 2 q + 1) := by
  rw [round53_pos_eq q hq]
  have hx : q * (2 : ℚ) ^ ((52 : ℤ) - Int.log 2 q) < 2 ^ (53 : ℤ) := by
    calc q * (2 : ℚ) ^ ((52 : ℤ) - Int.log 2 q)
        < 2 ^ (Int.log 2 q + 1) * 2 ^ ((52 : ℤ) - Int.log 2 q) :=
          mul_lt_mul_of_pos_right (q_lt_zpow_succ_log q) (zpow_pos (by norm_num) _)
      _ = 2 ^ (53 : ℤ) := by
          rw [← zpow_add₀ (by norm_num : (2 : ℚ) ≠ 0)]
          congr 1
          omega
  have hfl : ⌊q * (2 : ℚ) ^ ((52 : ℤ) - Int.log 2 q)⌋ < 9007199254740992 := by
    apply Int.floor_lt.mpr
    calc q * (2 : ℚ) ^ ((52 : ℤ) - Int.log 2 q) < 2 ^ (53 : ℤ) := hx
      _ = ((9007199254740992 : ℤ) : ℚ) := by
          rw [show (53 : ℤ) = ((53 : ℕ) : ℤ) from rfl, zpow_natCast]
          norm_num
  have hr : roundEvenQ (q * (2 : ℚ) ^ ((52 : ℤ) - Int.log 2 q)) ≤ 9007199254740992 := by
    have := roundEvenQ_le_floor_add_one (q * (2 : ℚ) ^ ((52 : ℤ) - Int.log 2 q))
    omega
  calc (roundEvenQ (q * 2 ^ ((52 : ℤ) - Int.log 2 q)) : ℚ) * 2 ^ (Int.log 2 q - 52)
      ≤ (9007199254740992 : ℚ) * 2 ^ (Int.log 2 q - 52) :=
        mul_le_mul_of_nonneg_right (by exact_mod_cast hr) (zpow_pos (by norm_num) _).le
    _ = 2 ^ (Int.log 2 q + 1) := by
        rw [show (9007199254740992 : ℚ) = 2 ^ (53 : ℤ) from by
          rw [show (53 : ℤ) = ((53 : ℕ) : ℤ) from rfl, zpow_natCast]
          norm_num]
        rw [← zpow_add₀ (by norm_num : (2 : ℚ) ≠ 0)]
        congr 1
        omega

theorem zpow_log_le_round53 (q : ℚ) (hq : 0 < q) :
    (2 : ℚ) ^ Int.log 2 q ≤ round53 q := by
  rw [round53_pos_eq q hq]
  have hx : (2 : ℚ) ^ (52 : ℤ) ≤ q * (2 : ℚ) ^ ((52 : ℤ) - Int.log 2 q) := by
    calc (2 : ℚ) ^ (52 : ℤ) = 2 ^ Int.log 2 q * 2 ^ ((52 : ℤ) - Int.log 2 q) := by
          rw [← zpow_add₀ (by norm_num : (2 : ℚ) ≠ 0)]
          congr 1
          omega
      _ ≤ q * 2 ^ ((52 : ℤ) - Int.log 2 q) :=
          mul_le_mul_of_nonneg_right (zpow_log_le_q q hq) (zpow_pos (by norm_num) _).le
  have hfl : (4503599627370496 : ℤ) ≤ ⌊q * (2 : ℚ) ^ ((52 : ℤ) - Int.log 2 q)⌋ := by
    apply Int.le_floor.mpr
    calc ((4503599627370496 : ℤ) : ℚ) = 2 ^ (52 : ℤ) := by
          rw [show (52 : ℤ) = ((52 : ℕ) : ℤ) from rfl, zpow_natCast]
          norm_num
      _ ≤ q * (2 : ℚ) ^ ((52 : ℤ) - Int.log 2 q) := hx
  have hr : (4503599627370496 : ℤ) ≤ roundEvenQ (q * (2 : ℚ) ^ ((52 : ℤ) - Int.log 2 q)) :=
    le_trans hfl (floor_le_roundEvenQ _)
  calc (2 : ℚ) ^ Int.log 2 q = (4503599627370496 : ℚ) * 2 ^ (Int.log 2 q - 52) := by
        rw [show (4503599627370496 : ℚ) = 2 ^ (52 : ℤ) from by
          rw [show (52 : ℤ) = ((52 : ℕ) : ℤ) from rfl, zpow_natCast]
          norm_num]
        rw [← zpow_add₀ (by norm_num : (2 : ℚ) ≠ 0)]
        congr 1
        omega
    _ ≤ (roundEvenQ (q * 2 ^ ((52 : ℤ) - Int.log 2 q)) : ℚ) * 2 ^ (Int.log 2 q - 52) :=
        mul_le_mul_of_nonneg_right (by exact_mod_cast hr) (zpow_pos (by norm_num) _).le

theorem round53_mono (a b : ℚ) (h : a ≤ b) : round53 a ≤ round53 b := by
  by_cases ha : a ≤ 0
  · have h0 : round53 a = 0 := by
      unfold round53
      rw [if_pos ha]
    rw [h0]
    exact round53_nonneg b
  · push_neg at ha
    have hb : 0 < b := lt_of_lt_of_le ha h
    have hee : Int.log 2 a ≤ Int.log 2 b := Int.log_mono_right ha h
    rcases eq_or_lt_of_le hee with heq | hlt
    · rw [round53_pos_eq a ha, round53_pos_eq b hb, ← heq]
      apply mul_le_mul_of_nonneg_right _ (zpow_pos (by norm_num : (0:ℚ) < 2) _).le
      have hmul : a * (2 : ℚ) ^ ((52 : ℤ) - Int.log 2 a)
          ≤ b * (2 : ℚ) ^ ((52 : ℤ) - Int.log 2 a) :=
        mul_le_mul_of_nonneg_right h (zpow_pos (by norm_num) _).le
      exact_mod_cast roundEvenQ_mono _ _ hmul
    · calc round53 a ≤ 2 ^ (Int.log 2 a + 1) := round53_le_zpow_succ a ha
        _ ≤ 2 ^ Int.log 2 b := zpow_le_zpow_right₀ (by norm_num) (by omega)
        _ ≤ round53 b := zpow_log_le_round53 b hb

theorem round53_one : round53 (1 : ℚ) = 1 := by
  have hlog : Int.log 2 (1 : ℚ) = 0 := Int.log_one_right 2
  rw [round53_pos_eq 1 one_pos, hlog]
  have h1 : (1 : ℚ) * (2 : ℚ) ^ ((52 : ℤ) - 0) = ((4503599627370496 : ℤ) : ℚ) := by
    rw [show ((52 : ℤ) - 0) = ((52 : ℕ) : ℤ) from by norm_num, zpow_natCast]
    norm_num
  rw [h1, roundEvenQ_intCast]
  rw [show ((0 : ℤ) - 52) = -((52 : ℕ) : ℤ) from by norm_num, zpow_neg, zpow_natCast]
  norm_num

theorem round53_hundred : round53 (100 : ℚ) = 100 := by
  have hlog : Int.log 2 (100 : ℚ) = 6 := by
    apply int_log_eq_of_bounds (by norm_num)
    · rw [show (6 : ℤ) = ((6 : ℕ) : ℤ) from rfl, zpow_natCast]
      norm_num
    · rw [show (6 : ℤ) + 1 = ((7 : ℕ) : ℤ) from by norm_num, zpow_natCast]
      norm_num
  rw [round53_pos_eq 100 (by norm_num), hlog]
  have hx : (100 : ℚ) * (2 : ℚ) ^ ((52 : ℤ) - 6) = ((7036874417766400 : ℤ) : ℚ) := by
    rw [show ((52 : ℤ) - 6) = ((46 : ℕ) : ℤ) from by norm_num, zpow_natCast]
    norm_num
  rw [hx, roundEvenQ_intCast]
  rw [show ((6 : ℤ) - 52) = -((46 : ℕ) : ℤ) from by norm_num, zpow_neg, zpow_natCast]
  norm_num

/-- The progress percentage reported before processing item `i` of `total`
(main.py:802): `int(((i-1)/total) * 100)` in binary64 arithmetic.  `i-1` and
`total` convert to binary64 exactly (they are far below `2^53`), the division
and the multiplication each round once, and `int()` truncates toward zero —
the floor, on these non-negative values. -/
def pctFloat (total i : Nat) : ℤ :=
  ⌊round53 (round53 (((i - 1 : Nat) : ℚ) / (total : ℚ)) * 100)⌋

theorem pctFloat_mono (n : ℕ) {i j : ℕ} (h : i ≤ j) : pctFloat n i ≤ pctFloat n j := by
  apply Int.floor_le_floor
  apply round53_mono
  apply mul_le_mul_of_nonneg_right _ (by norm_num : (0 : ℚ) ≤ 100)
  apply round53_mono
  rcases Nat.eq_zero_or_pos n with rfl | hn
  · simp
  · rw [div_le_div_iff_of_pos_right (by exact_mod_cast hn)]
    exact_mod_cast Nat.sub_le_sub_right h 1

theorem pctFloat_le_100 (n i : ℕ) (h : i - 1 ≤ n) : pctFloat n i ≤ 100 := by
  have h1 : (((i - 1 : Nat) : ℚ)) / (n : ℚ) ≤ 1 := by
    rcases Nat.eq_zero_or_pos n with rfl | hn
    · simp
    · rw [div_le_one (by exact_mod_cast hn)]
      exact_mod_cast h
  have h2 : round53 ((((i - 1 : Nat) : ℚ)) / (n : ℚ)) * 100 ≤ 100 := by
    have h3 := round53_mono _ _ h1
    rw [round53_one] at h3
    linarith
  have h4 := round53_mono _ _ h2
  rw [round53_hundred] at h4
  calc pctFloat n i ≤ ⌊(100 : ℚ)⌋ := Int.floor_le_floor h4
    _ = 100 := by norm_num

/-- The binary64 value of `29/100`: rounding `0.29` to 53 significant bits
gives `5224175567749775 · 2⁻⁵⁴`, which is strictly below `29/100`. -/
theorem round53_29_div_100 :
    round53 (29 / 100 : ℚ) = 5224175567749775 / 18014398509481984 := by
  have hlog : Int.log 2 (29 / 100 : ℚ) = -2 := by
    apply int_log_eq_of_bounds (by norm_num)
    · rw [show (-2 : ℤ) = -((2 : ℕ) : ℤ) from by norm_num, zpow_neg, zpow_natCast]
      norm_num
    · rw [show (-2 : ℤ) + 1 = -((1 : ℕ) : ℤ) from by norm_num, zpow_neg, zpow_natCast]
      norm_num
  rw [round53_pos_eq _ (by norm_num), hlog]
  have hx : (29 / 100 : ℚ) * 2 ^ ((52 : ℤ) - (-2)) = 522417556774977536 / 100 := by
    rw [show ((52 : ℤ) - (-2)) = ((54 : ℕ) : ℤ) from by norm_num, zpow_natCast]
    norm_num
  rw [hx]
  have hfl : ⌊(522417556774977536 / 100 : ℚ)⌋ = 5224175567749775 := by
    rw [Int.floor_eq_iff]
    constructor <;> norm_num
  have hre : roundEvenQ (522417556774977536 / 100 : ℚ) = 5224175567749775 := by
    unfold roundEvenQ
    rw [hfl, if_pos (by norm_num)]
  rw [hre]
  rw [show ((-2 : ℤ) - 52) = -((54 : ℕ) : ℤ) from by norm_num, zpow_neg, zpow_natCast]
  norm_num

/-- The code's progress value before item 30 of 100: `0.29 * 100` evaluates to
`28.999999999999996...` in binary64, so `int()` yields 28 — not 29. -/
theorem pctFloat_100_30 : pctFloat 100 30 = 28 := by
  unfold pctFloat
  have hc : (((30 - 1 : Nat) : ℚ)) / ((100 : ℕ) : ℚ) = 29 / 100 := by norm_num
  rw [hc, round53_29_div_100]
  have hy : (5224175567749775 / 18014398509481984 : ℚ) * 100
      = 522417556774977500 / 18014398509481984 := by norm_num
  rw [hy]
  have hlog : Int.log 2 (522417556774977500 / 18014398509481984 : ℚ) = 4 := by
    apply int_log_eq_of_bounds (by norm_num)
    · rw [show (4 : ℤ) = ((4 : ℕ) : ℤ) from rfl, zpow_natCast]
      norm_num
    · rw [show (4 : ℤ) + 1 = ((5 : ℕ) : ℤ) from by norm_num, zpow_natCast]
      norm_num
  rw [round53_pos_eq _ (by norm_num), hlog]
  have hx : (522417556774977500 / 18014398509481984 : ℚ) * 2 ^ ((52 : ℤ) - 4)
      = 522417556774977500 / 64 := by
    rw [show ((52 : ℤ) - 4) = ((48 : ℕ) : ℤ) from by norm_num, zpow_natCast]
    norm_num
  rw [hx]
  have hfl : ⌊(522417556774977500 / 64 : ℚ)⌋ = 8162774324609023 := by
    rw [Int.floor_eq_iff]
    constructor <;> norm_num
  have hre : roundEvenQ (522417556774977500 / 64 : ℚ) = 8162774324609023 := by
    unfold roundEvenQ
    rw [hfl, if_pos (by norm_num)]
  rw [hre]
  rw [show ((4 : ℤ) - 52) = -((48 : ℕ) : ℤ) from by norm_num, zpow_neg, zpow_natCast]
  rw [Int.floor_eq_iff]
  constructor <;> norm_num

/-! ## BatchRunner: `_process_files` (main.py:792-829) -/

/-- What one engine invocation observably does: `subprocess.run` completes
with an exit code and captured stderr, or the per-item body raises (the
`except` of main.py:821 catches anything). -/
inductive RunOutcome
  | completed (returncode : Int) (stderr : String)
  | raised (msg : String)

/-- One logged per-item result: the `OK →` line (main.py:820), the
`[ffmpeg] error` line (main.py:818), or the `[error]` line of the except
branch (main.py:822). -/
inductive ItemOutcome
  | ok (inputPath : String)
  | ffmpegError (inputPath stderr : String)
  | failed (inputPath msg : String)
deriving DecidableEq, Repr

/-- Outcomes counted as failures by the spec (non-zero exit or exception). -/
def isFailureOutcome : ItemOutcome → Bool
  | .ok _ => false
  | .ffmpegError _ _ => true
  | .failed _ _ => true

/-- The per-item body of main.py:801-822: an exception is logged, a non-zero
`returncode` is logged as an ffmpeg error, otherwise the item succeeded.
(Name resolution and command synthesis — `resolveName`, `buildFfmpegCommand` —
are total and are verified separately.) -/
def itemStep (run : FileItem → RunOutcome) (it : FileItem) : ItemOutcome :=
  match run it with
  | .raised msg => .failed it.path msg
  | .completed rc err => if rc ≠ 0 then .ffmpegError it.path err else .ok it.path

/-- The loop of `_process_files`: item `i` (1-indexed) of `total` first
reports `pctFloat total i` via `_ui_progress`, then runs; failures are
per-item and the loop always continues.  Returns the progress reports and the
per-item outcomes, in order. -/
def processItems (run : FileItem → RunOutcome) (total : Nat) :
    Nat → List FileItem → List ℤ × List ItemOutcome
  | _, [] => ([], [])
  | i, it :: rest =>
    (pctFloat total i :: (processItems run total (i + 1) rest).1,
     itemStep run it :: (processItems run total (i + 1) rest).2)

/-- `_process_files` (main.py:792-829): iterate the queue in insertion order,
then report 100 unconditionally (main.py:824). -/
def processFiles (run : FileItem → RunOutcome) (queue : List FileItem) :
    List ℤ × List ItemOutcome :=
  ((processItems run queue.length 1 queue).1 ++ [100],
   (processItems run queue.length 1 queue).2)

theorem processItems_trace (run : FileItem → RunOutcome) (total : Nat) :
    ∀ (i : Nat) (l : List FileItem),
      (processItems run total i l).1
        = (List.range l.length).map (fun k => pctFloat total (i + k)) := by
  intro i l
  induction l generalizing i with
  | nil => rfl
  | cons it rest ih =>
    show pctFloat total i :: (processItems run total (i + 1) rest).1
        = (List.range (rest.length + 1)).map (fun k => pctFloat total (i + k))
    rw [List.range_succ_eq_map, ih (i + 1)]
    simp only [List.map_cons, List.map_map, Nat.add_zero, List.cons.injEq]
    refine ⟨trivial, ?_⟩
    apply List.map_congr_left
    intro k _
    simp only [Function.comp_apply]
    congr 1
    omega

theorem processItems_outcomes (run : FileItem → RunOutcome) (total : Nat) :
    ∀ (i : Nat) (l : List FileItem),
      (processItems run total i l).2 = l.map (itemStep run) := by
  intro i l
  induction l generalizing i with
  | nil => rfl
  | cons it rest ih =>
    show itemStep run it :: (processItems run total (i + 1) rest).2
        = itemStep run it :: rest.map (itemStep run)
    rw [ih (i + 1)]

/-- C5 fails on the code: in a 100-item run, the progress reported before item
30 (trace index 29) is the binary64 value 28, while the claim's formula
`floor((i-1)/n*100)` gives 29 — `0.29 * 100` rounds to just below 29. -/
theorem progress_floor_formula_fails :
    ((processFiles (fun _ => .completed 0 "")
        (List.replicate 100 ⟨"f", ⟨"", "", ""⟩⟩)).1[29]? = some (pctFloat 100 30)) ∧
    pctFloat 100 30 = 28 ∧
    (((30 : ℤ) - 1) * 100) / 100 = 29 ∧
    pctFloat 100 30 ≠ (((30 : ℤ) - 1) * 100) / 100 := by
  refine ⟨?_, pctFloat_100_30, by norm_num, ?_⟩
  · unfold processFiles
    rw [processItems_trace, List.length_replicate]
    rw [List.getElem?_append_left (by simp)]
    rw [List.getElem?_map]
    rw [List.getElem?_range (by norm_num)]
    rfl
  · rw [pctFloat_100_30]
    norm_num

/-- C5 (amended): the progress reported before item `i` of `n` is the binary64
evaluation `int(((i-1)/n) * 100)` (`pctFloat`), which can fall one below
`floor((i-1)/n*100)` when the float product lands just under an integer (e.g.
`n = 100, i = 30` reports 28, not 29); after the last item 100 is reported
regardless of failures, and the reported sequence is monotonically
non-decreasing within the run. -/
theorem batch_progress_reports (run : FileItem → RunOutcome) (queue : List FileItem)
    (h : queue ≠ []) :
    (processFiles run queue).1
      = (List.range queue.length).map (fun k => pctFloat queue.length (k + 1)) ++ [100] ∧
    (processFiles run queue).1.getLast? = some 100 ∧
    List.Sorted (· ≤ ·) ((processFiles run queue).1) := by
  have htrace : (processFiles run queue).1
      = (List.range queue.length).map (fun k => pctFloat queue.length (k + 1)) ++ [100] := by
    unfold processFiles
    rw [processItems_trace]
    dsimp only
    congr 1
    apply List.map_congr_left
    intro k _
    congr 1
    omega
  refine ⟨htrace, ?_, ?_⟩
  · rw [htrace]
    exact List.getLast?_concat _
  · rw [htrace]
    show List.Pairwise (· ≤ ·) _
    apply List.pairwise_append.mpr
    refine ⟨?_, ?_, ?_⟩
    · exact (List.pairwise_lt_range _).map _
        (fun a b hab => pctFloat_mono _ (by omega))
    · simp
    · intro x hx y hy
      simp only [List.mem_singleton] at hy
      subst hy
      obtain ⟨k, hk, rfl⟩ := List.mem_map.mp hx
      have hk2 : k < queue.length := List.mem_range.mp hk
      exact pctFloat_le_100 _ _ (by omega)

theorem batch_progress_reports_witness :
    (([⟨"a", ⟨"", "", ""⟩⟩] : List FileItem) ≠ []) ∧
    (processFiles (fun _ => .completed 0 "") [⟨"a", ⟨"", "", ""⟩⟩]).1.getLast? = some 100 :=
  ⟨by decide,
    (batch_progress_reports (fun _ => .completed 0 "") [⟨"a", ⟨"", "", ""⟩⟩]
      (by decide)).2.1⟩

/-- C6: every queue item yields exactly one recorded outcome (no exception
escapes the loop — the batch always completes) and the final progress report
is always 100; in the concrete 3-item run where item 2 exits with code 1, the
outcomes are success/failure/success — 1 failure, 2 successes. -/
theorem batch_failure_isolation :
    (∀ run queue, ((processFiles run queue).2).length = queue.length) ∧
    (∀ run queue, (processFiles run queue).1.getLast? = some 100) ∧
    ((processFiles (fun it => if it.path = "b" then .completed 1 "boom" else .completed 0 "")
        [⟨"a", ⟨"", "", ""⟩⟩, ⟨"b", ⟨"", "", ""⟩⟩, ⟨"c", ⟨"", "", ""⟩⟩]).2
      = [.ok "a", .ffmpegError "b" "boom", .ok "c"]) ∧
    ((processFiles (fun it => if it.path = "b" then .completed 1 "boom" else .completed 0 "")
        [⟨"a", ⟨"", "", ""⟩⟩, ⟨"b", ⟨"", "", ""⟩⟩, ⟨"c", ⟨"", "", ""⟩⟩]).2.countP
        (fun o => isFailureOutcome o) = 1) ∧
    ((processFiles (fun it => if it.path = "b" then .completed 1 "boom" else .completed 0 "")
        [⟨"a", ⟨"", "", ""⟩⟩, ⟨"b", ⟨"", "", ""⟩⟩, ⟨"c", ⟨"", "", ""⟩⟩]).2.countP
        (fun o => !(isFailureOutcome o)) = 2) := by
  have houtcomes :
      (processFiles (fun it => if it.path = "b" then .completed 1 "boom" else .completed 0 "")
        [⟨"a", ⟨"", "", ""⟩⟩, ⟨"b", ⟨"", "", ""⟩⟩, ⟨"c", ⟨"", "", ""⟩⟩]).2
      = [.ok "a", .ffmpegError "b" "boom", .ok "c"] := by
    unfold processFiles
    rw [processItems_outcomes]
    decide
  refine ⟨?_, ?_, houtcomes, ?_, ?_⟩
  · intro run queue
    unfold processFiles
    rw [processItems_outcomes]
    exact List.length_map _ _
  · intro run queue
    unfold processFiles
    exact List.getLast?_concat _
  · rw [houtcomes]
    decide
  · rw [houtcomes]
    decide
